import Mathlib

/-!
# Verification of the DataCustomId field codec

Shallow embedding of `src/DataCustomId.ts`: a codec that stores key/value
fields inside a length-limited identifier string, using a query-string-like
grammar (fields after a `?` separator, pairs joined by `&`, arrays
comma-joined).

JavaScript strings are modelled as Lean `String` (length counts characters;
the UTF-16 surrogate-pair distinction is not modelled).  JavaScript numbers
are modelled as exact rationals plus distinguished not-a-number and infinity
values; the shortest-round-trip decimal rendering of doubles is modelled by
the exact decimal expansion of the rational (exponent notation for very
large or very small magnitudes is not modelled).

The repository serializes and parses through the third-party `qs` library,
which is not part of the source tree; its behaviour under the exact option
sets used by the source (`comma: true` on parse; `addQueryPrefix`,
`arrayFormat: comma`, `skipNulls`, `encode: false` on stringify) is
modelled from the specification, as marked on the definitions below.
-/

/-- Result of a JavaScript numeric operation: not-a-number, a signed
infinity, or a finite value modelled as an exact rational. -/
inductive JSNum where
  | nan
  | inf (neg : Bool)
  | val (q : Rat)
deriving DecidableEq

/-- Whitespace characters stripped by `parseInt` and `parseFloat`
(the common ASCII whitespace set). -/
def isJsWhitespace (c : Char) : Bool :=
  c = ' ' || c = '\t' || c = '\n' || c = '\r' || c = '\x0b' || c = '\x0c'

/-- Numeric value of a digit character in bases up to 36, if any. -/
def digitVal (c : Char) : Option Nat :=
  if '0' ≤ c && c ≤ '9' then some (c.toNat - '0'.toNat)
  else if 'a' ≤ c && c ≤ 'z' then some (c.toNat - 'a'.toNat + 10)
  else if 'A' ≤ c && c ≤ 'Z' then some (c.toNat - 'A'.toNat + 10)
  else none

/-- Longest prefix of digits valid in the given base, as numeric values. -/
def takeDigits (base : Nat) : List Char → List Nat
  | [] => []
  | c :: cs =>
    match digitVal c with
    | some d => if d < base then d :: takeDigits base cs else []
    | none => []

/-- Digit list to the number it denotes in the given base. -/
def digitsToNat (base : Nat) (ds : List Nat) : Nat :=
  ds.foldl (fun acc d => acc * base + d) 0

/-- JavaScript `parseInt` on a character list: skip whitespace, optional
sign, radix handling per ECMA-262 (radix 0 means 10 unless the input has a
`0x` prefix; radix 16 strips a `0x` prefix; radix outside 2..36 gives
not-a-number), then the longest digit prefix; empty digit prefix gives
not-a-number. -/
def parseIntCore (cs0 : List Char) (base : Nat) : JSNum :=
  let cs1 := cs0.dropWhile isJsWhitespace
  let signed : Bool × List Char :=
    match cs1 with
    | '-' :: rest => (true, rest)
    | '+' :: rest => (false, rest)
    | _ => (false, cs1)
  let neg := signed.1
  let prefixed : Nat × List Char :=
    if base = 16 || base = 0 then
      match signed.2 with
      | '0' :: 'x' :: rest => (16, rest)
      | '0' :: 'X' :: rest => (16, rest)
      | _ => (if base = 0 then 10 else 16, signed.2)
    else (base, signed.2)
  let R := prefixed.1
  if R < 2 || 36 < R then JSNum.nan
  else
    let ds := takeDigits R prefixed.2
    if ds.isEmpty then JSNum.nan
    else
      let n := digitsToNat R ds
      JSNum.val (if neg then -(n : Rat) else (n : Rat))

/-- JavaScript `parseInt(s, base)`. -/
def jsParseInt (s : String) (base : Nat) : JSNum :=
  parseIntCore s.data base

/-- Longest prefix of decimal digits, with the remaining characters. -/
def decDigitSpan : List Char → List Nat × List Char
  | [] => ([], [])
  | c :: cs =>
    if '0' ≤ c && c ≤ '9' then
      let r := decDigitSpan cs
      ((c.toNat - 48) :: r.1, r.2)
    else ([], c :: cs)

/-- Exponent part of a decimal literal: consumed only when the `e` or `E`
is followed by an optionally signed nonempty digit string. -/
def parseExponent (cs : List Char) : Int :=
  match cs with
  | 'e' :: rest | 'E' :: rest =>
    let signed : Bool × List Char :=
      match rest with
      | '-' :: r2 => (true, r2)
      | '+' :: r2 => (false, r2)
      | _ => (false, rest)
    let ds := (decDigitSpan signed.2).1
    if ds.isEmpty then 0
    else
      let e : Int := (digitsToNat 10 ds : Nat)
      if signed.1 then -e else e
  | _ => 0

/-- JavaScript `parseFloat` on a character list: skip whitespace, optional
sign, `Infinity`, or the longest decimal-literal prefix
(digits, optional fraction, optional exponent); no valid prefix gives
not-a-number.  The value is computed exactly as a rational. -/
def parseFloatCore (cs0 : List Char) : JSNum :=
  let cs1 := cs0.dropWhile isJsWhitespace
  let signed : Bool × List Char :=
    match cs1 with
    | '-' :: rest => (true, rest)
    | '+' :: rest => (false, rest)
    | _ => (false, cs1)
  let neg := signed.1
  if signed.2.take 8 = "Infinity".data then JSNum.inf neg
  else
    let intSpan := decDigitSpan signed.2
    let fracSpan : List Nat × List Char :=
      match intSpan.2 with
      | '.' :: rest => decDigitSpan rest
      | _ => ([], intSpan.2)
    if intSpan.1.isEmpty && fracSpan.1.isEmpty then JSNum.nan
    else
      let e : Int := parseExponent fracSpan.2 - fracSpan.1.length
      let m : Nat := digitsToNat 10 (intSpan.1 ++ fracSpan.1)
      let mag : Rat :=
        if 0 ≤ e then mkRat (m * 10 ^ e.toNat) 1
        else mkRat m (10 ^ (-e).toNat)
      JSNum.val (if neg then -mag else mag)

/-- JavaScript `parseFloat(s)`. -/
def jsParseFloat (s : String) : JSNum :=
  parseFloatCore s.data

/-- Fractional decimal digits of `num / den` (with `num < den`) by long
division; the fuel bound covers the terminating expansion of every
double-precision value. -/
def fracDigits : Nat → Nat → Nat → List Char
  | 0, _, _ => []
  | _ + 1, 0, _ => []
  | fuel + 1, num, den =>
    let num10 := num * 10
    Char.ofNat (48 + num10 / den) :: fracDigits fuel (num10 % den) den

/-- JavaScript `String(number)` for a finite value, modelled as the exact
decimal expansion of the rational (no exponent notation). -/
def jsNumToString (q : Rat) : String :=
  let sign := if q < 0 then "-" else ""
  let n := q.num.natAbs
  let d := q.den
  if n % d = 0 then sign ++ toString (n / d)
  else sign ++ toString (n / d) ++ "." ++ String.mk (fracDigits 1100 (n % d) d)

/-- A stored field value, mirroring the union type
`boolean | number | number[] | null | string | string[]` of the source. -/
inductive FieldValue where
  | str (s : String)
  | strArr (xs : List String)
  | num (q : Rat)
  | numArr (xs : List Rat)
  | bool (b : Bool)
  | null
deriving DecidableEq

/-- True for values of the form `str s`. -/
def FieldValue.isStr : FieldValue → Bool
  | .str _ => true
  | _ => false

/-- True for values of the form `num q`. -/
def FieldValue.isNum : FieldValue → Bool
  | .num _ => true
  | _ => false

/-- A field mapping: ordered name/value pairs (a JavaScript object with
string keys; objects produced by the source operations have distinct
keys). -/
abbrev Fields := List (String × FieldValue)

/-- Property access `fields[key]`: the first binding of the key, if any. -/
def lookupField (fs : Fields) (k : String) : Option FieldValue :=
  (fs.find? (fun kv => kv.1 == k)).map (fun kv => kv.2)

/-- JavaScript truthiness of a stored value (`!value` is its negation).
Arrays are truthy even when empty. -/
def isTruthy : FieldValue → Bool
  | .str s => !(s == "")
  | .strArr _ => true
  | .num q => !(q == 0)
  | .numArr _ => true
  | .bool b => b
  | .null => false

/-- The test `value === true || value === "true"` from `compressFields`. -/
def isTrueLike : FieldValue → Bool
  | .bool true => true
  | .str s => s == "true"
  | _ => false

/-- The falsy notion used by the specification text, which counts an empty
sequence as falsy (JavaScript truthiness does not). -/
def specFalsy : FieldValue → Bool
  | .str s => s == ""
  | .strArr xs => xs.isEmpty
  | .num q => q == 0
  | .numArr xs => xs.isEmpty
  | .bool b => !b
  | .null => true

/-- The two encode options of `DataCustomIdEncodeOptions`. -/
structure EncodeOptions where
  skipFalsyValues : Bool
  convertTrueToOne : Bool
deriving DecidableEq

/-- `defaultEncodeOptions` from the source. -/
def defaultEncodeOptions : EncodeOptions :=
  { skipFalsyValues := true, convertTrueToOne := false }

/-- Split a character list at every occurrence of the separator, keeping
empty pieces, like JavaScript `String.prototype.split` with a one-character
separator. -/
def splitOnCharL (c : Char) : List Char → List (List Char)
  | [] => [[]]
  | x :: xs =>
    match splitOnCharL c xs with
    | [] => [[x]]
    | p :: ps => if x = c then [] :: p :: ps else (x :: p) :: ps

/-- String-level split on a one-character separator. -/
def splitOnChar (c : Char) (s : String) : List String :=
  (splitOnCharL c s.data).map String.mk

/-- Join character lists with a separator list between consecutive pieces. -/
def joinSepL (sep : List Char) : List (List Char) → List Char
  | [] => []
  | [x] => x
  | x :: y :: xs => x ++ sep ++ joinSepL sep (y :: xs)

/-- String-level join with a separator. -/
def joinSep (sep : String) (xs : List String) : String :=
  String.mk (joinSepL sep.data (xs.map String.data))

/-- Modelled from the spec: value decoding of the `qs` parse with
`comma: true` (not in the source tree).  A value containing a comma is an
array of the comma-separated pieces; otherwise it is a plain string. -/
def parseValue (cs : List Char) : FieldValue :=
  if cs.contains ',' then FieldValue.strArr ((splitOnCharL ',' cs).map String.mk)
  else FieldValue.str (String.mk cs)

/-- Modelled from the spec: one `name=value` pair of the field block; the
name is everything before the first `=`, the value everything after it (a
pair with no `=` has the empty value). -/
def parsePair (cs : List Char) : String × FieldValue :=
  (String.mk (cs.takeWhile (fun c => c != '=')),
   parseValue ((cs.dropWhile (fun c => c != '=')).drop 1))

/-- Modelled from the spec: the `qs` library parse with `comma: true`
(the library is not in the source tree).  The field block is a sequence of
`name=value` pairs joined by `&`; an empty block yields an empty mapping;
no percent-decoding is applied.  Duplicate names keep all pairs in order
(lookup takes the first). -/
def qsParse (s : String) : Fields :=
  if s.data.isEmpty then []
  else (splitOnCharL '&' s.data).map parsePair

/-- Modelled from the spec: how `qs` stringify with `arrayFormat: comma`,
`skipNulls: true`, `encode: false` renders one value: arrays are
comma-joined under one key and empty arrays are omitted, null values are
omitted, numbers and booleans render by their string conversion. -/
def encodeValue : FieldValue → Option String
  | .str s => some s
  | .strArr xs => if xs.isEmpty then none else some (joinSep "," xs)
  | .num q => some (jsNumToString q)
  | .numArr xs => if xs.isEmpty then none else some (joinSep "," (xs.map jsNumToString))
  | .bool b => some (if b then "true" else "false")
  | .null => none

/-- The `name=value` component an entry contributes to the field block, if
any. -/
def componentOf (kv : String × FieldValue) : Option String :=
  (encodeValue kv.2).map (fun v => kv.1 ++ "=" ++ v)

/-- All components of the field block, in entry order. -/
def encodedComponents (fs : Fields) : List String :=
  fs.filterMap componentOf

/-- Modelled from the spec: the `qs` library stringify with
`addQueryPrefix: true`, `arrayFormat: comma`, `skipNulls: true`,
`encode: false`: components joined by `&`, a leading `?` prepended exactly
when the joined block is nonempty. -/
def qsStringify (fs : Fields) : String :=
  let joined := joinSep "&" (encodedComponents fs)
  if joined.data.isEmpty then "" else "?" ++ joined

/-- The identifier object: raw prefix, derived path segments, and the
field mapping (`DataCustomId` in the source). -/
structure DataCustomId where
  rawId : String
  pathParts : List String
  fields : Fields
deriving DecidableEq

/-- The constructor: a raw string with a `?` splits at the first `?` into
the raw prefix and the parsed field block; otherwise the whole string is
the prefix and the mapping is empty.  `pathParts` is the prefix split on
`/`.  Construction is total. -/
def mkDataCustomId (id : String) : DataCustomId :=
  if id.data.contains '?' then
    let i := id.data.findIdx (fun c => c == '?')
    let rawId : String := String.mk (id.data.take i)
    { rawId := rawId
      pathParts := splitOnChar '/' rawId
      fields := qsParse (String.mk (id.data.drop (i + 1))) }
  else
    { rawId := id, pathParts := splitOnChar '/' id, fields := [] }

/-- `addField`: insert or overwrite one binding (overwrite keeps the
position of the existing binding, as JavaScript property assignment
does). -/
def addField (d : DataCustomId) (k : String) (v : FieldValue) : DataCustomId :=
  { d with fields :=
      if (d.fields.find? (fun kv => kv.1 == k)).isSome then
        d.fields.map (fun kv => if kv.1 == k then (kv.1, v) else kv)
      else d.fields ++ [(k, v)] }

/-- JavaScript object spread `{...a, ...b}`: the keys of `a` in order with
the values of `b` where both are present, then the keys of `b` not in
`a`. -/
def spreadMerge (a b : Fields) : Fields :=
  a.map (fun kv => (kv.1, (lookupField b kv.1).getD kv.2)) ++
    b.filter (fun kv => (lookupField a kv.1).isNone)

/-- `addFields`: batch merge, later bindings overwriting existing ones. -/
def addFields (d : DataCustomId) (fs : Fields) : DataCustomId :=
  { d with fields := spreadMerge d.fields fs }

/-- `removeField`: delete the named binding if present. -/
def removeField (d : DataCustomId) (k : String) : DataCustomId :=
  { d with fields := d.fields.filter (fun kv => kv.1 != k) }

/-- `copyFieldsFrom`: copy every binding of the other identifier into this
one, the other winning on conflicts. -/
def copyFieldsFrom (d other : DataCustomId) : DataCustomId :=
  { d with fields := spreadMerge d.fields other.fields }

/-- `copyFieldsFrom` as a step on the pair of objects: only the receiver
is written, the source object is left as it was. -/
def copyFieldsFromS (p : DataCustomId × DataCustomId) : DataCustomId × DataCustomId :=
  (copyFieldsFrom p.1 p.2, p.2)

/-- `getStringField`: the value when it is stored as a plain string,
otherwise the empty string. -/
def getStringField (d : DataCustomId) (k : String) : String :=
  match lookupField d.fields k with
  | some (.str s) => s
  | _ => ""

/-- JavaScript string conversion of a stored value, used to model reads
that surface a non-string value where a string is expected. -/
def jsValueToString : FieldValue → String
  | .str s => s
  | .num q => jsNumToString q
  | .bool b => if b then "true" else "false"
  | .null => "null"
  | .strArr xs => joinSep "," xs
  | .numArr xs => joinSep "," (xs.map jsNumToString)

/-- `getStringArrayField`: an absent field gives the empty list, an array
is returned as is, a scalar is wrapped in a one-element list.  A stored
non-string scalar (or number array) is represented here through its
JavaScript string conversion, which matches how the numeric-array reader
subsequently parses it. -/
def getStringArrayField (d : DataCustomId) (k : String) : List String :=
  match lookupField d.fields k with
  | none => []
  | some (.strArr xs) => xs
  | some (.numArr xs) => xs.map jsNumToString
  | some v => [jsValueToString v]

/-- `getNumericField`: a stored string is parsed with `parseInt` in the
given base, or with `parseFloat` (which ignores the base) when `float` is
set; a stored number is returned directly; anything else gives
not-a-number. -/
def getNumericField (d : DataCustomId) (k : String) (float : Bool) (base : Nat) : JSNum :=
  match lookupField d.fields k with
  | some (.str s) => if float then jsParseFloat s else jsParseInt s base
  | some (.num q) => JSNum.val q
  | _ => JSNum.nan

/-- `getNumericArrayField` as the source implements it: an absent field
gives the empty list; otherwise every entry of `getStringArrayField` is
parsed with `parseInt` in base 10, regardless of the `float` and `base`
arguments. -/
def getNumericArrayField (d : DataCustomId) (k : String) (float : Bool) (base : Nat) :
    List JSNum :=
  match lookupField d.fields k with
  | none => []
  | some _ => (getStringArrayField d k).map (fun x => jsParseInt x 10)

/-- Modelled from the spec: the behaviour the specification (and the
method documentation in the source) ascribe to `getNumericArrayField`:
entry-wise the same coercion as `getNumericField`, honouring the `float`
and `base` arguments. -/
def getNumericArrayFieldSpec (d : DataCustomId) (k : String) (float : Bool) (base : Nat) :
    List JSNum :=
  (getStringArrayField d k).map (fun x => if float then jsParseFloat x else jsParseInt x base)

/-- `getBooleanField`: true exactly for stored `true`, `1`, `"true"` or
`"1"`. -/
def getBooleanField (d : DataCustomId) (k : String) : Bool :=
  match lookupField d.fields k with
  | some (.str s) => s == "true" || s == "1"
  | some (.bool b) => b
  | some (.num q) => q == 1
  | _ => false

/-- One entry of the compression pass: drop falsy values when
`skipFalsyValues` is set, rewrite `true` and `"true"` to `"1"` when
`convertTrueToOne` is set, otherwise keep the entry. -/
def compressEntry (o : EncodeOptions) (kv : String × FieldValue) :
    Option (String × FieldValue) :=
  if o.skipFalsyValues && !(isTruthy kv.2) then none
  else if o.convertTrueToOne && isTrueLike kv.2 then some (kv.1, FieldValue.str "1")
  else some kv

/-- `compressFields`: identity when every option is disabled (the
shortcut in the source), otherwise the entry-wise pass, building a new
mapping. -/
def compressFields (fs : Fields) (o : EncodeOptions) : Fields :=
  if o.skipFalsyValues = false ∧ o.convertTrueToOne = false then fs
  else fs.filterMap (compressEntry o)

/-- The composed output of `toString` before the length check: the raw
prefix, with the encoded field block appended when it has more than one
character. -/
def composedId (d : DataCustomId) (o : EncodeOptions) : String :=
  let encodedFields := qsStringify (compressFields d.fields o)
  if encodedFields.length > 1 then d.rawId ++ encodedFields else d.rawId

/-- The message of the length error (the apostrophe of the original
message text is elided). -/
def lengthErrorMessage (s : String) : String :=
  "DataCustomId is over Discord limit of 100 characters: " ++ s

/-- `toString`: compress, encode, compose, and fail with the length error
when the composed string exceeds 100 characters. -/
def toStringE (d : DataCustomId) (o : EncodeOptions) : Except String String :=
  let finalId := composedId d o
  if finalId.length > 100 then Except.error (lengthErrorMessage finalId)
  else Except.ok finalId

/-- `toString` as a step on the object state: the method only reads the
object (the compression pass builds a fresh mapping), so the state after
the call is the state before it. -/
def toStringS (d : DataCustomId) (o : EncodeOptions) :
    Except String String × DataCustomId :=
  (toStringE d o, d)

/-- A raw identifier of exactly 100 characters. -/
def hundredCharId : String :=
  "0123456789012345678901234567890123456789012345678901234567890123456789012345678901234567890123456789"

/-- A raw identifier of 101 characters. -/
def hundredOneCharId : String := hundredCharId ++ "z"

/-- Example object for C1: one field holding the string value `10.5`. -/
def c1Example : DataCustomId :=
  addField (mkDataCustomId "x") "a" (FieldValue.str "10.5")

/-- Example object for C1: one field holding the string value `ff`. -/
def c1HexExample : DataCustomId :=
  addField (mkDataCustomId "x") "h" (FieldValue.str "ff")

/-- Receiver object for the C6 witness. -/
def c6A : DataCustomId :=
  addFields (mkDataCustomId "x") [("k", FieldValue.str "1"), ("u", FieldValue.str "2")]

/-- Source object for the C6 witness. -/
def c6B : DataCustomId :=
  addField (mkDataCustomId "y") "k" (FieldValue.str "3")

/-- Object for the C9 witness: a string field, a numeric field and a
boolean field. -/
def c9Example : DataCustomId :=
  addFields (mkDataCustomId "x")
    [("s", FieldValue.str "10.5"), ("n", FieldValue.num 7), ("b", FieldValue.bool true)]

/-! ## Helper lemmas: strings and splitting -/

theorem sdata_append (a b : String) : (a ++ b).data = a.data ++ b.data := rfl

theorem smk_data (s : String) : String.mk s.data = s := rfl

theorem slength_data (s : String) : s.length = s.data.length := rfl

theorem splitOnCharL_ne_nil (c : Char) (l : List Char) : splitOnCharL c l ≠ [] := by
  cases l with
  | nil => simp [splitOnCharL]
  | cons x xs =>
    simp only [splitOnCharL]
    cases h : splitOnCharL c xs with
    | nil => simp
    | cons p ps => by_cases hx : x = c <;> simp [hx]

theorem splitOnCharL_not_mem {c : Char} :
    ∀ {l : List Char}, c ∉ l → splitOnCharL c l = [l] := by
  intro l
  induction l with
  | nil => intro _; rfl
  | cons x xs ih =>
    intro h
    have hx : ¬ x = c := fun he => h (by simp [he])
    have hxs : c ∉ xs := fun hm => h (List.mem_cons_of_mem _ hm)
    simp only [splitOnCharL, ih hxs]
    simp [hx]

theorem splitOnCharL_append_cons {c : Char} :
    ∀ (a r : List Char), c ∉ a →
      splitOnCharL c (a ++ c :: r) = a :: splitOnCharL c r := by
  intro a
  induction a with
  | nil =>
    intro r _
    simp only [List.nil_append, splitOnCharL]
    cases h : splitOnCharL c r with
    | nil => exact absurd h (splitOnCharL_ne_nil c r)
    | cons p ps => simp
  | cons x xs ih =>
    intro r h
    have hx : ¬ x = c := fun he => h (by simp [he])
    have hxs : c ∉ xs := fun hm => h (List.mem_cons_of_mem _ hm)
    show splitOnCharL c (x :: (xs ++ c :: r)) = (x :: xs) :: splitOnCharL c r
    rw [splitOnCharL, ih r hxs]
    simp [hx]

theorem splitOnCharL_joinSepL {c : Char} :
    ∀ (ps : List (List Char)), ps ≠ [] → (∀ p ∈ ps, c ∉ p) →
      splitOnCharL c (joinSepL [c] ps) = ps := by
  intro ps
  induction ps with
  | nil => intro h _; exact absurd rfl h
  | cons x xs ih =>
    intro _ hmem
    cases xs with
    | nil =>
      simp only [joinSepL]
      exact splitOnCharL_not_mem (hmem x (by simp))
    | cons y ys =>
      have hx : c ∉ x := hmem x (by simp)
      have hrest : ∀ p ∈ y :: ys, c ∉ p := fun p hp => hmem p (by simp [hp])
      calc splitOnCharL c (joinSepL [c] (x :: y :: ys))
          = splitOnCharL c (x ++ c :: joinSepL [c] (y :: ys)) := by
            simp [joinSepL, List.append_assoc]
        _ = x :: splitOnCharL c (joinSepL [c] (y :: ys)) :=
            splitOnCharL_append_cons _ _ hx
        _ = x :: y :: ys := by rw [ih (by simp) hrest]

theorem takeWhile_bne_append {c : Char} :
    ∀ (a b : List Char), c ∉ a →
      (a ++ c :: b).takeWhile (fun x => x != c) = a := by
  intro a
  induction a with
  | nil => intro b _; simp [List.takeWhile]
  | cons x xs ih =>
    intro b h
    have hx : ¬ x = c := fun he => h (by simp [he])
    have hxs : c ∉ xs := fun hm => h (List.mem_cons_of_mem _ hm)
    simp only [List.cons_append, List.takeWhile_cons]
    simp [hx, ih b hxs]

theorem dropWhile_bne_append {c : Char} :
    ∀ (a b : List Char), c ∉ a →
      (a ++ c :: b).dropWhile (fun x => x != c) = c :: b := by
  intro a
  induction a with
  | nil => intro b _; simp [List.dropWhile]
  | cons x xs ih =>
    intro b h
    have hx : ¬ x = c := fun he => h (by simp [he])
    have hxs : c ∉ xs := fun hm => h (List.mem_cons_of_mem _ hm)
    simp only [List.cons_append, List.dropWhile_cons]
    simp [hx, ih b hxs]

theorem takeWhile_bne_of_not_mem {c : Char} :
    ∀ {a : List Char}, c ∉ a → a.takeWhile (fun x => x != c) = a := by
  intro a
  induction a with
  | nil => intro _; rfl
  | cons x xs ih =>
    intro h
    have hx : ¬ x = c := fun he => h (by simp [he])
    have hxs : c ∉ xs := fun hm => h (List.mem_cons_of_mem _ hm)
    simp [List.takeWhile_cons, hx, ih hxs]

theorem dropWhile_bne_of_not_mem {c : Char} :
    ∀ {a : List Char}, c ∉ a → a.dropWhile (fun x => x != c) = [] := by
  intro a
  induction a with
  | nil => intro _; rfl
  | cons x xs ih =>
    intro h
    have hx : ¬ x = c := fun he => h (by simp [he])
    have hxs : c ∉ xs := fun hm => h (List.mem_cons_of_mem _ hm)
    simp [List.dropWhile_cons, hx, ih hxs]

theorem take_findIdx_beq {c : Char} :
    ∀ (l : List Char), l.take (l.findIdx (fun x => x == c)) =
      l.takeWhile (fun x => x != c) := by
  intro l
  induction l with
  | nil => rfl
  | cons x xs ih =>
    by_cases hx : x = c
    · simp [List.findIdx_cons, List.takeWhile_cons, hx]
    · have hb : (x == c) = false := by simp [hx]
      have hbn : (x != c) = true := by simp [bne, hb]
      simp [List.findIdx_cons, List.takeWhile_cons, hb, hbn, ih]

theorem drop_findIdx_beq {c : Char} :
    ∀ (l : List Char), l.drop (l.findIdx (fun x => x == c) + 1) =
      (l.dropWhile (fun x => x != c)).drop 1 := by
  intro l
  induction l with
  | nil => rfl
  | cons x xs ih =>
    by_cases hx : x = c
    · simp [List.findIdx_cons, List.dropWhile_cons, hx]
    · have hb : (x == c) = false := by simp [hx]
      have hbn : (x != c) = true := by simp [bne, hb]
      simp only [List.findIdx_cons, hb, cond_false, List.drop_succ_cons,
        List.dropWhile_cons, hbn, if_true]
      exact ih

/-! ## Helper lemmas: the constructor -/

theorem mk_rawId_data (id : String) :
    (mkDataCustomId id).rawId.data = id.data.takeWhile (fun c => c != '?') := by
  cases h : id.data.contains '?'
  · have hnm : '?' ∉ id.data := by simpa using h
    simp only [mkDataCustomId, h, Bool.false_eq_true, if_false]
    exact (takeWhile_bne_of_not_mem hnm).symm
  · simp only [mkDataCustomId, h, if_true]
    exact take_findIdx_beq id.data

theorem mk_fields_eq (id : String) :
    (mkDataCustomId id).fields =
      qsParse (String.mk ((id.data.dropWhile (fun c => c != '?')).drop 1)) := by
  cases h : id.data.contains '?'
  · have hnm : '?' ∉ id.data := by simpa using h
    simp only [mkDataCustomId, h, Bool.false_eq_true, if_false]
    rw [dropWhile_bne_of_not_mem hnm]
    rfl
  · simp only [mkDataCustomId, h, if_true]
    rw [drop_findIdx_beq id.data]

theorem mk_pathParts_eq (id : String) :
    (mkDataCustomId id).pathParts = splitOnChar '/' (mkDataCustomId id).rawId := by
  cases h : id.data.contains '?' <;>
    simp only [mkDataCustomId, h, Bool.false_eq_true, if_true, if_false]

/-! ## Helper lemmas: field lookup and spread merge -/

theorem lookupField_nil (k : String) : lookupField [] k = none := rfl

theorem find?_map_of_key (f : (String × FieldValue) → (String × FieldValue))
    (hf : ∀ x, (f x).1 = x.1) (k : String) :
    ∀ (a : Fields), (a.map f).find? (fun x => x.1 == k) =
      (a.find? (fun x => x.1 == k)).map f := by
  intro a
  induction a with
  | nil => rfl
  | cons kv a ih =>
    simp only [List.map_cons, List.find?_cons, hf kv]
    cases hb : (kv.1 == k) <;> simp [ih]

theorem lookupField_filter_of_key_true (p : (String × FieldValue) → Bool) (k : String)
    (hp : ∀ kv, kv.1 = k → p kv = true) :
    ∀ (b : Fields), lookupField (b.filter p) k = lookupField b k := by
  intro b
  induction b with
  | nil => rfl
  | cons kv b ih =>
    by_cases hk : kv.1 = k
    · have := hp kv hk
      simp [List.filter_cons, this, lookupField, List.find?_cons, hk]
    · have hb : (kv.1 == k) = false := by simp [hk]
      cases hpkv : p kv <;>
        simp_all [List.filter_cons, lookupField, List.find?_cons, hb]

theorem lookupField_append (x y : Fields) (k : String) :
    lookupField (x ++ y) k = (lookupField x k).or (lookupField y k) := by
  unfold lookupField
  rw [List.find?_append]
  cases x.find? (fun kv => kv.1 == k) <;> simp

theorem lookupField_spreadMap (a b : Fields) (k : String) :
    lookupField (a.map (fun kv => (kv.1, (lookupField b kv.1).getD kv.2))) k =
      (a.find? (fun kv => kv.1 == k)).map (fun kv => (lookupField b kv.1).getD kv.2) := by
  induction a with
  | nil => rfl
  | cons kv a ih =>
    by_cases hb : kv.1 = k
    · simp [lookupField, List.find?_cons, hb]
    · have hbf : (kv.1 == k) = false := by simp [hb]
      calc lookupField
            ((kv.1, (lookupField b kv.1).getD kv.2) ::
              a.map (fun kv => (kv.1, (lookupField b kv.1).getD kv.2))) k
          = lookupField (a.map (fun kv => (kv.1, (lookupField b kv.1).getD kv.2))) k := by
            unfold lookupField
            rw [List.find?_cons]
            simp [hbf]
        _ = (a.find? (fun kv => kv.1 == k)).map
              (fun kv => (lookupField b kv.1).getD kv.2) := ih
        _ = ((kv :: a).find? (fun kv => kv.1 == k)).map
              (fun kv => (lookupField b kv.1).getD kv.2) := by
            rw [List.find?_cons, hbf]

theorem lookupField_spreadMerge (a b : Fields) (k : String) :
    lookupField (spreadMerge a b) k =
      match lookupField b k with
      | some v => some v
      | none => lookupField a k := by
  unfold spreadMerge
  rw [lookupField_append, lookupField_spreadMap]
  cases hf : a.find? (fun kv => kv.1 == k) with
  | some kv0 =>
    have hk0 : kv0.1 = k := by simpa using List.find?_some hf
    have ha : lookupField a k = some kv0.2 := by
      unfold lookupField
      rw [hf]
      rfl
    show some ((lookupField b kv0.1).getD kv0.2) =
      match lookupField b k with
      | some v => some v
      | none => lookupField a k
    rw [hk0]
    cases hbv : lookupField b k with
    | some vb => simp [hbv]
    | none => simp [hbv, ha]
  | none =>
    have ha : lookupField a k = none := by
      unfold lookupField
      rw [hf]
      rfl
    rw [lookupField_filter_of_key_true _ k (fun kv hk => by rw [hk, ha]; rfl) b]
    cases hbv : lookupField b k <;> simp [hbv, ha]

theorem spreadMerge_nil (b : Fields) : spreadMerge [] b = b := by
  unfold spreadMerge
  simp [lookupField_nil, List.filter_eq_self]

/-! ## Helper lemmas: encoding -/

theorem filterMap_filter_of_none {α β : Type} (p : α → Bool) (g : α → Option β)
    (h : ∀ a, p a = false → g a = none) :
    ∀ (l : List α), (l.filter p).filterMap g = l.filterMap g := by
  intro l
  induction l with
  | nil => rfl
  | cons x xs ih =>
    cases hp : p x with
    | false => simp [List.filter_cons, hp, List.filterMap_cons, h x hp, ih]
    | true => simp [List.filter_cons, hp, List.filterMap_cons, ih]

/-! ## Claim theorems -/

/-- C7: serialize is a pure read: the object state after a `toString` call
is the object state before it (fields and raw prefix unchanged), and two
consecutive calls with the same fields and options return the same
result. -/
theorem toString_pure_read (d : DataCustomId) (o : EncodeOptions) :
    (toStringS d o).2 = d ∧
    (toStringS (toStringS d o).2 o).1 = (toStringS d o).1 ∧
    ((toStringS d o).2).fields = d.fields ∧
    ((toStringS d o).2).rawId = d.rawId :=
  ⟨rfl, rfl, rfl, rfl⟩

/-- C4: serialize fails with the length error exactly when the composed
string exceeds 100 characters, the error carries the would-be output
string, and a composed string of exactly 100 characters is returned
normally. -/
theorem toString_length_limit :
    (∀ (d : DataCustomId) (o : EncodeOptions),
      toStringE d o =
        if (composedId d o).length > 100 then
          Except.error (lengthErrorMessage (composedId d o))
        else Except.ok (composedId d o)) ∧
    composedId (mkDataCustomId hundredCharId) defaultEncodeOptions = hundredCharId ∧
    toStringE (mkDataCustomId hundredCharId) defaultEncodeOptions =
      Except.ok hundredCharId ∧
    toStringE (mkDataCustomId hundredOneCharId) defaultEncodeOptions =
      Except.error (lengthErrorMessage hundredOneCharId) :=
  ⟨fun _ _ => rfl, rfl, rfl, rfl⟩

/-- C1: the claim (and the method documentation in the source) say that
`getNumericArrayField` applies the same coercion as `getNumericField`,
honouring the `float` and `base` arguments; the implementation always
parses entries as integers in base 10.  At the value `10.5` with `float`
set the code yields 10 where the documented behaviour yields 10.5, and at
the value `ff` with base 16 the code yields not-a-number where the
documented behaviour yields 255. -/
theorem getNumericArrayField_ignores_float_base :
    getNumericArrayField c1Example "a" true 10 = [JSNum.val 10] ∧
    getNumericArrayFieldSpec c1Example "a" true 10 = [JSNum.val (mkRat 21 2)] ∧
    getNumericArrayField c1HexExample "h" false 16 = [JSNum.nan] ∧
    getNumericArrayFieldSpec c1HexExample "h" false 16 = [JSNum.val 255] ∧
    getNumericArrayField c1Example "a" true 10 ≠
      getNumericArrayFieldSpec c1Example "a" true 10 := by
  refine ⟨?_, ?_, ?_, ?_, ?_⟩ <;> decide

theorem compressEntry_bind_none_of_specFalsy (c : Bool) (kv : String × FieldValue)
    (h : specFalsy kv.2 = true) :
    (compressEntry { skipFalsyValues := true, convertTrueToOne := c } kv).bind
      componentOf = none := by
  obtain ⟨k, v⟩ := kv
  cases v with
  | str s =>
    have hs : (s == "") = true := by simpa [specFalsy] using h
    simp [compressEntry, isTruthy, hs]
  | strArr xs =>
    have hx : xs = [] := by simpa [specFalsy, List.isEmpty_iff] using h
    subst hx
    simp [compressEntry, isTruthy, isTrueLike, componentOf, encodeValue]
  | num q =>
    have hq : (q == 0) = true := by simpa [specFalsy] using h
    simp [compressEntry, isTruthy, hq]
  | numArr xs =>
    have hx : xs = [] := by simpa [specFalsy, List.isEmpty_iff] using h
    subst hx
    simp [compressEntry, isTruthy, isTrueLike, componentOf, encodeValue]
  | bool b =>
    have hb : b = false := by simpa [specFalsy] using h
    subst hb
    simp [compressEntry, isTruthy]
  | null => simp [compressEntry, isTruthy]

/-- C3: with `skipFalsyValues` enabled, entries whose value is falsy in
the sense of the specification (empty string, zero, empty sequence, null,
boolean false) contribute nothing to the serialized output, whatever the
other option is; in particular the mapping
`{a: false, b: 0, c: "", d: []}` with default options and prefix `rawId`
serializes to exactly `rawId`, with no field block. -/
theorem skipFalsy_omits_falsy_entries :
    (∀ (fs : Fields) (c : Bool),
      encodedComponents
          (compressFields fs { skipFalsyValues := true, convertTrueToOne := c }) =
        encodedComponents
          (compressFields (fs.filter (fun kv => !(specFalsy kv.2)))
            { skipFalsyValues := true, convertTrueToOne := c })) ∧
    toStringE
        (addFields (mkDataCustomId "rawId")
          [("a", FieldValue.bool false), ("b", FieldValue.num 0),
           ("c", FieldValue.str ""), ("d", FieldValue.strArr [])])
        defaultEncodeOptions =
      Except.ok "rawId" := by
  constructor
  · intro fs c
    have hbranch : ∀ (l : Fields),
        compressFields l { skipFalsyValues := true, convertTrueToOne := c } =
          l.filterMap (compressEntry { skipFalsyValues := true, convertTrueToOne := c }) := by
      intro l
      simp [compressFields]
    rw [hbranch, hbranch]
    unfold encodedComponents
    rw [List.filterMap_filterMap, List.filterMap_filterMap]
    refine (filterMap_filter_of_none _ _ (fun kv hkv => ?_) fs).symm
    exact compressEntry_bind_none_of_specFalsy c kv (by simpa using hkv)
  · rfl

theorem compressEntry_true_like (kv : String × FieldValue) :
    compressEntry { skipFalsyValues := false, convertTrueToOne := true } kv =
      some (if isTrueLike kv.2 then (kv.1, FieldValue.str "1") else kv) := by
  cases h : isTrueLike kv.2 <;> simp [compressEntry, h]

/-- C8: with `convertTrueToOne` enabled (and no falsy skipping, as in the
options value of the example), the compression pass rewrites every entry
whose value is boolean true or the string `true` to the string `1` and
keeps every other entry unchanged; in particular `{a: true, b: "true"}`
encodes to the field block `a=1&b=1`. -/
theorem convertTrueToOne_rewrites_true :
    (∀ (fs : Fields),
      compressFields fs { skipFalsyValues := false, convertTrueToOne := true } =
        fs.map (fun kv => if isTrueLike kv.2 then (kv.1, FieldValue.str "1") else kv)) ∧
    toStringE
        (addFields (mkDataCustomId "x")
          [("a", FieldValue.bool true), ("b", FieldValue.str "true")])
        { skipFalsyValues := false, convertTrueToOne := true } =
      Except.ok "x?a=1&b=1" := by
  constructor
  · intro fs
    have hbranch :
        compressFields fs { skipFalsyValues := false, convertTrueToOne := true } =
          fs.filterMap (compressEntry { skipFalsyValues := false, convertTrueToOne := true }) := by
      simp [compressFields]
    rw [hbranch]
    clear hbranch
    induction fs with
    | nil => rfl
    | cons kv fs ih => simp [List.filterMap_cons, compressEntry_true_like, ih]
  · rfl

theorem compressEntry_null_component (o : EncodeOptions) (k : String) :
    (compressEntry o (k, FieldValue.null)).bind componentOf = none := by
  cases h : o.skipFalsyValues <;>
    simp [compressEntry, isTruthy, isTrueLike, componentOf, encodeValue, h]

/-- C10: an entry whose stored value is null never appears in the
serialized output, under every combination of options: deleting all
null-valued entries changes neither the encoded components nor the result
of serialization; in particular a null field is absent from the output
even with `skipFalsyValues` disabled. -/
theorem null_fields_never_encoded (d : DataCustomId) (o : EncodeOptions) :
    encodedComponents (compressFields d.fields o) =
      encodedComponents
        (compressFields (d.fields.filter (fun kv => !(kv.2 == FieldValue.null))) o) ∧
    toStringE d o =
      toStringE
        { d with fields := d.fields.filter (fun kv => !(kv.2 == FieldValue.null)) } o ∧
    toStringE (addField (mkDataCustomId "x") "n" FieldValue.null)
        { skipFalsyValues := false, convertTrueToOne := false } =
      Except.ok "x" := by
  have hnull : ∀ kv : String × FieldValue,
      (!(kv.2 == FieldValue.null)) = false → kv.2 = FieldValue.null := by
    intro kv hkv
    simpa using hkv
  have hcomp : encodedComponents (compressFields d.fields o) =
      encodedComponents
        (compressFields (d.fields.filter (fun kv => !(kv.2 == FieldValue.null))) o) := by
    by_cases hc : o.skipFalsyValues = false ∧ o.convertTrueToOne = false
    · simp only [compressFields, hc, if_true]
      unfold encodedComponents
      refine (filterMap_filter_of_none _ componentOf (fun kv hkv => ?_) d.fields).symm
      obtain ⟨k, v⟩ := kv
      have : v = FieldValue.null := hnull _ hkv
      subst this
      rfl
    · simp only [compressFields, hc, if_false]
      unfold encodedComponents
      rw [List.filterMap_filterMap, List.filterMap_filterMap]
      refine (filterMap_filter_of_none _ _ (fun kv hkv => ?_) d.fields).symm
      obtain ⟨k, v⟩ := kv
      have : v = FieldValue.null := hnull _ hkv
      subst this
      exact compressEntry_null_component o k
  refine ⟨hcomp, ?_, rfl⟩
  unfold toStringE composedId qsStringify
  rw [hcomp]

/-- C6: after `A.copyFieldsFrom(B)`, every key that `B` defines holds the
value from `B` (the source wins on conflict), every key defined only in
`A` keeps its previous value, and `B` is unchanged by the operation. -/
theorem copyFieldsFrom_other_wins (A B : DataCustomId) (k : String) :
    (∀ vb, lookupField B.fields k = some vb →
      lookupField ((copyFieldsFromS (A, B)).1).fields k = some vb) ∧
    (lookupField B.fields k = none →
      lookupField ((copyFieldsFromS (A, B)).1).fields k = lookupField A.fields k) ∧
    (copyFieldsFromS (A, B)).2 = B := by
  refine ⟨?_, ?_, rfl⟩
  · intro vb hvb
    show lookupField (spreadMerge A.fields B.fields) k = some vb
    rw [lookupField_spreadMerge, hvb]
  · intro hnone
    show lookupField (spreadMerge A.fields B.fields) k = lookupField A.fields k
    rw [lookupField_spreadMerge, hnone]

/-- Witness for C6 at concrete objects: the shared key takes the source
value, the receiver-only key is untouched, the source is unchanged. -/
theorem copyFieldsFrom_other_wins_witness :
    lookupField ((copyFieldsFromS (c6A, c6B)).1).fields "k" = some (FieldValue.str "3") ∧
    lookupField ((copyFieldsFromS (c6A, c6B)).1).fields "u" = lookupField c6A.fields "u" ∧
    (copyFieldsFromS (c6A, c6B)).2 = c6B :=
  ⟨(copyFieldsFrom_other_wins c6A c6B "k").1 (FieldValue.str "3") rfl,
   (copyFieldsFrom_other_wins c6A c6B "u").2.1 rfl,
   (copyFieldsFrom_other_wins c6A c6B "k").2.2⟩

/-- C9: `getNumericField` parses a stored string with `parseInt` in the
given base, or with `parseFloat` (the base being ignored) when `float` is
set, so that `10.5` parsed as an integer in base 10 yields 10; a stored
number is returned directly; every other stored shape, and an absent
field, yields not-a-number. -/
theorem getNumericField_coercion (d : DataCustomId) (k : String)
    (float : Bool) (base : Nat) :
    (∀ s, lookupField d.fields k = some (FieldValue.str s) →
      getNumericField d k float base =
        if float then jsParseFloat s else jsParseInt s base) ∧
    jsParseInt "10.5" 10 = JSNum.val 10 ∧
    (∀ q, lookupField d.fields k = some (FieldValue.num q) →
      getNumericField d k float base = JSNum.val q) ∧
    (∀ v, lookupField d.fields k = some v → v.isStr = false → v.isNum = false →
      getNumericField d k float base = JSNum.nan) ∧
    (lookupField d.fields k = none → getNumericField d k float base = JSNum.nan) := by
  refine ⟨?_, by decide, ?_, ?_, ?_⟩
  · intro s hs
    unfold getNumericField
    rw [hs]
  · intro q hq
    unfold getNumericField
    rw [hq]
  · intro v hv h1 h2
    unfold getNumericField
    rw [hv]
    cases v with
    | str s => simp [FieldValue.isStr] at h1
    | num q => simp [FieldValue.isNum] at h2
    | strArr xs => rfl
    | numArr xs => rfl
    | bool b => rfl
    | null => rfl
  · intro h
    unfold getNumericField
    rw [h]

/-- Witness for C9 at concrete fields: string parse in both modes, direct
numeric return, not-a-number for a boolean and for an absent field. -/
theorem getNumericField_coercion_witness :
    getNumericField c9Example "s" false 10 = jsParseInt "10.5" 10 ∧
    getNumericField c9Example "s" true 10 = jsParseFloat "10.5" ∧
    getNumericField c9Example "n" false 10 = JSNum.val 7 ∧
    getNumericField c9Example "b" false 10 = JSNum.nan ∧
    getNumericField c9Example "zz" false 10 = JSNum.nan :=
  ⟨(getNumericField_coercion c9Example "s" false 10).1 "10.5" rfl,
   (getNumericField_coercion c9Example "s" true 10).1 "10.5" rfl,
   (getNumericField_coercion c9Example "n" false 10).2.2.1 7 rfl,
   (getNumericField_coercion c9Example "b" false 10).2.2.2.1 (FieldValue.bool true) rfl rfl rfl,
   (getNumericField_coercion c9Example "zz" false 10).2.2.2.2 rfl⟩

/-- C5: construction is total; the raw prefix is everything before the
first `?` (the whole string when there is none, in which case the mapping
is empty), the field mapping is decoded from everything after the first
`?`, and the path segments are the prefix split on `/` with empty
segments preserved. -/
theorem constructor_parses_raw_id (id : String) :
    (mkDataCustomId id).rawId.data = id.data.takeWhile (fun c => c != '?') ∧
    (mkDataCustomId id).fields =
      qsParse (String.mk ((id.data.dropWhile (fun c => c != '?')).drop 1)) ∧
    (mkDataCustomId id).pathParts = splitOnChar '/' (mkDataCustomId id).rawId ∧
    (id.data.contains '?' = false →
      (mkDataCustomId id).rawId = id ∧ (mkDataCustomId id).fields = []) ∧
    splitOnChar '/' "/a//b/" = ["", "a", "", "b", ""] := by
  refine ⟨mk_rawId_data id, mk_fields_eq id, mk_pathParts_eq id, fun h => ?_, by decide⟩
  have hnm : '?' ∉ id.data := by simpa using h
  constructor
  · simp [mkDataCustomId, hnm]
  · rw [mk_fields_eq id, dropWhile_bne_of_not_mem hnm]
    rfl

/-- Witness for C5 on a raw string without a separator: the prefix is the
whole input and the mapping is empty. -/
theorem constructor_parses_raw_id_witness :
    (mkDataCustomId "a/b").rawId = "a/b" ∧ (mkDataCustomId "a/b").fields = [] :=
  (constructor_parses_raw_id "a/b").2.2.2.1 rfl

theorem joinSepL_cons (sep x : List Char) (xs : List (List Char)) :
    ∃ t, joinSepL sep (x :: xs) = x ++ t := by
  cases xs with
  | nil => exact ⟨[], by simp [joinSepL]⟩
  | cons y ys => exact ⟨sep ++ joinSepL sep (y :: ys), by simp [joinSepL]⟩

/-- C2 as stated is false: `1,2` is a truthy scalar string value, but its
comma makes the round trip decode it as a two-element array rather than
the original string. -/
theorem roundtrip_comma_counterexample :
    toStringE (addField (mkDataCustomId "p") "a" (FieldValue.str "1,2"))
        { skipFalsyValues := false, convertTrueToOne := false } =
      Except.ok "p?a=1,2" ∧
    (mkDataCustomId "p?a=1,2").fields = [("a", FieldValue.strArr ["1", "2"])] ∧
    (mkDataCustomId "p?a=1,2").fields ≠
      (addField (mkDataCustomId "p") "a" (FieldValue.str "1,2")).fields :=
  ⟨rfl, by decide, by decide⟩

/-- C2 amended: if additionally the prefix contains no `?`, field names
are distinct and contain neither `&` nor `=`, values are nonempty and
contain neither `&` nor `,`, and the composed output stays within the
length limit, then parsing the serialized string recovers exactly the
field mapping, values as strings. -/
theorem roundtrip_restricted (P : String) (F : List (String × String))
    (hP : '?' ∉ P.data)
    (hnd : (F.map Prod.fst).Nodup)
    (hk : ∀ p ∈ F, '&' ∉ p.1.data ∧ '=' ∉ p.1.data)
    (hv : ∀ p ∈ F, p.2 ≠ "" ∧ '&' ∉ p.2.data ∧ ',' ∉ p.2.data)
    (hlen : (composedId
        (addFields (mkDataCustomId P) (F.map (fun p => (p.1, FieldValue.str p.2))))
        { skipFalsyValues := false, convertTrueToOne := false }).length ≤ 100) :
    ∃ out,
      toStringE
          (addFields (mkDataCustomId P) (F.map (fun p => (p.1, FieldValue.str p.2))))
          { skipFalsyValues := false, convertTrueToOne := false } =
        Except.ok out ∧
      (mkDataCustomId out).fields = F.map (fun p => (p.1, FieldValue.str p.2)) := by
  have hd0 : (mkDataCustomId P).fields = [] := by simp [mkDataCustomId, hP]
  have hraw0 : (mkDataCustomId P).rawId = P := by simp [mkDataCustomId, hP]
  have hfld : (addFields (mkDataCustomId P)
      (F.map (fun p => (p.1, FieldValue.str p.2)))).fields =
      F.map (fun p => (p.1, FieldValue.str p.2)) := by
    show spreadMerge (mkDataCustomId P).fields _ = _
    rw [hd0, spreadMerge_nil]
  have hraw : (addFields (mkDataCustomId P)
      (F.map (fun p => (p.1, FieldValue.str p.2)))).rawId = P := hraw0
  have hcompress : compressFields (F.map (fun p => (p.1, FieldValue.str p.2)))
      { skipFalsyValues := false, convertTrueToOne := false } =
      F.map (fun p => (p.1, FieldValue.str p.2)) := by
    simp [compressFields]
  have hcomps : ∀ (L : List (String × String)),
      encodedComponents (L.map (fun p => (p.1, FieldValue.str p.2))) =
        L.map (fun p => p.1 ++ "=" ++ p.2) := by
    intro L
    induction L with
    | nil => rfl
    | cons p L ih =>
      simp only [List.map_cons, encodedComponents, List.filterMap_cons] at ih ⊢
      rw [ih]
      rfl
  refine ⟨composedId
      (addFields (mkDataCustomId P) (F.map (fun p => (p.1, FieldValue.str p.2))))
      { skipFalsyValues := false, convertTrueToOne := false }, ?_, ?_⟩
  · unfold toStringE
    have : ¬ (composedId
        (addFields (mkDataCustomId P) (F.map (fun p => (p.1, FieldValue.str p.2))))
        { skipFalsyValues := false, convertTrueToOne := false }).length > 100 := by
      omega
    simp only [this, if_false]
  · cases F with
    | nil =>
      have hcomposed : composedId
          (addFields (mkDataCustomId P) (([] : List (String × String)).map
            (fun p => (p.1, FieldValue.str p.2))))
          { skipFalsyValues := false, convertTrueToOne := false } = P := by
        unfold composedId
        rw [hfld, hcompress]
        have hqe : qsStringify (([] : List (String × String)).map
            (fun p => (p.1, FieldValue.str p.2))) = "" := rfl
        rw [hqe]
        have hlt : ¬ ("" : String).length > 1 := by decide
        rw [if_neg hlt]
        exact hraw0
      rw [hcomposed, mk_fields_eq P, dropWhile_bne_of_not_mem hP]
      rfl
    | cons p0 rest =>
      have hne : (p0 :: rest).map (fun p => p.1 ++ "=" ++ p.2) ≠ [] := by simp
      obtain ⟨t, ht⟩ := joinSepL_cons "&".data ((p0.1 ++ "=" ++ p0.2).data)
        (((rest).map (fun p => p.1 ++ "=" ++ p.2)).map String.data)
      have hp0ne : (p0.1 ++ "=" ++ p0.2).data ≠ [] := by
        rw [sdata_append, sdata_append]
        simp
      have hjdata : (joinSep "&" ((p0 :: rest).map (fun p => p.1 ++ "=" ++ p.2))).data =
          (p0.1 ++ "=" ++ p0.2).data ++ t := by
        show joinSepL "&".data (((p0 :: rest).map (fun p => p.1 ++ "=" ++ p.2)).map
          String.data) = _
        rw [List.map_cons, List.map_cons]
        exact ht
      have hjne : (joinSep "&" ((p0 :: rest).map (fun p => p.1 ++ "=" ++ p.2))).data ≠ [] := by
        rw [hjdata]
        intro hcon
        exact hp0ne (List.append_eq_nil.mp hcon).1
      have hstr : qsStringify ((p0 :: rest).map (fun p => (p.1, FieldValue.str p.2))) =
          "?" ++ joinSep "&" ((p0 :: rest).map (fun p => p.1 ++ "=" ++ p.2)) := by
        unfold qsStringify
        rw [hcomps (p0 :: rest)]
        simp only [List.isEmpty_iff, hjne, if_false]
      have hlen1 : ("?" ++ joinSep "&" ((p0 :: rest).map (fun p => p.1 ++ "=" ++ p.2))).length > 1 := by
        rw [slength_data, sdata_append, List.length_append]
        cases hc : (joinSep "&" ((p0 :: rest).map (fun p => p.1 ++ "=" ++ p.2))).data with
        | nil => exact absurd hc hjne
        | cons c cs =>
          have h1 : ("?" : String).data.length = 1 := rfl
          rw [h1, List.length_cons]
          omega
      have hcomposed : composedId
          (addFields (mkDataCustomId P) ((p0 :: rest).map (fun p => (p.1, FieldValue.str p.2))))
          { skipFalsyValues := false, convertTrueToOne := false } =
          P ++ ("?" ++ joinSep "&" ((p0 :: rest).map (fun p => p.1 ++ "=" ++ p.2))) := by
        unfold composedId
        rw [hfld, hcompress, hstr, hraw]
        simp only [hlen1, if_true]
      rw [hcomposed]
      have houtdata : (P ++ ("?" ++ joinSep "&" ((p0 :: rest).map (fun p => p.1 ++ "=" ++ p.2)))).data =
          P.data ++ '?' :: (joinSep "&" ((p0 :: rest).map (fun p => p.1 ++ "=" ++ p.2))).data := by
        rw [sdata_append, sdata_append]
        rfl
      rw [mk_fields_eq]
      rw [houtdata, dropWhile_bne_append P.data _ hP]
      simp only [List.drop_succ_cons, List.drop_zero]
      have hpieces : ∀ p ∈ (p0 :: rest), '&' ∉ (p.1 ++ "=" ++ p.2).data := by
        intro p hp
        rw [sdata_append, sdata_append]
        intro hmem
        rcases List.mem_append.mp hmem with h1 | h2
        · rcases List.mem_append.mp h1 with h3 | h4
          · exact (hk p hp).1 h3
          · simp at h4
        · exact (hv p hp).2.1 h2
      have hsplit : splitOnCharL '&'
          (joinSep "&" ((p0 :: rest).map (fun p => p.1 ++ "=" ++ p.2))).data =
          ((p0 :: rest).map (fun p => p.1 ++ "=" ++ p.2)).map String.data := by
        show splitOnCharL '&' (joinSepL "&".data _) = _
        have hsep : ("&" : String).data = ['&'] := rfl
        rw [hsep]
        refine splitOnCharL_joinSepL _ (by simp) ?_
        intro piece hpiece
        obtain ⟨s, hs, hsd⟩ := List.mem_map.mp hpiece
        obtain ⟨p, hp, hps⟩ := List.mem_map.mp hs
        subst hsd
        subst hps
        exact hpieces p hp
      unfold qsParse
      simp only [List.isEmpty_iff, hjne, if_false, hsplit]
      rw [List.map_map, List.map_map]
      refine List.map_congr_left ?_
      intro p hp
      show parsePair ((p.1 ++ "=" ++ p.2).data) = (p.1, FieldValue.str p.2)
      have hdata : (p.1 ++ "=" ++ p.2).data = p.1.data ++ '=' :: p.2.data := by
        rw [sdata_append, sdata_append]
        simp
      rw [hdata]
      unfold parsePair
      rw [takeWhile_bne_append p.1.data p.2.data (hk p hp).2,
        dropWhile_bne_append p.1.data p.2.data (hk p hp).2]
      simp only [List.drop_succ_cons, List.drop_zero]
      have hval : parseValue p.2.data = FieldValue.str p.2 := by
        unfold parseValue
        have hcomma : ¬ (p.2.data.contains ',' = true) := by
          simpa using (hv p hp).2.2
        rw [if_neg hcomma]
      rw [hval]

/-- Witness for the amended C2 at a concrete prefix and mapping. -/
theorem roundtrip_restricted_witness :
    ∃ out,
      toStringE
          (addFields (mkDataCustomId "p")
            ([("a", "1"), ("b", "xy")].map (fun p => (p.1, FieldValue.str p.2))))
          { skipFalsyValues := false, convertTrueToOne := false } =
        Except.ok out ∧
      (mkDataCustomId out).fields =
        [("a", "1"), ("b", "xy")].map (fun p => (p.1, FieldValue.str p.2)) :=
  roundtrip_restricted "p" [("a", "1"), ("b", "xy")] (by decide) (by decide)
    (by decide) (by decide) (by decide)
